import Mathlib

/-!
A verification development for the Gophor server core: the bounded LRU file
cache with freshness monitoring (part_002), the gophermap parser and renderer
(gophermap.go), and the policy-file bootstrap (part_000).

Byte buffers are modelled as `String` (the served files are text), Go maps as
association lists with unique keys, and `container/list` values as plain
`List String` (each list element is identified by the path it carries, which
is unique under the cache invariant).  Machine integers (`int64` timestamps)
are modelled as `Int`; list lengths and capacities as `Nat`.
-/

namespace Gophor

/- ------------------------------------------------------------------ -/
/- Constants.  These are configuration globals or string constants of the
   repository that live in files outside src/; the claims settled here do
   not depend on their exact values. -/

/-- Modelled from the spec: CR-LF line terminator used by the gophermap
format (the constant itself is defined outside src/). -/
def CrLf : String := "\r\n"

/-- Modelled from the spec: DOS line ending used by the generated policy
files (the constant itself is defined outside src/). -/
def DOSLineEnd : String := "\r\n"

/-- Modelled from the spec: the gophermap file-name suffix tested by the
include directive (constant defined outside src/). -/
def GophermapFileStr : String := "gophermap"

/-- Modelled from the spec: the hostname placeholder replaced in menu
lines (constant defined outside src/). -/
def ReplaceStrHostname : String := "$hostname"

/-- Modelled from the spec: the configured server hostname (a runtime
flag; the claims do not depend on its value). -/
def ServerHostname : String := "example.org"

/-- Modelled from the spec: the configured server port as text (a runtime
flag; the claims do not depend on its value). -/
def ServerPort : String := "70"

/-- Modelled from the spec: the configured page width for reflowed info
lines (a runtime flag; the claims do not depend on its value). -/
def PageWidth : Nat := 80

/-- Modelled from the spec: the text substituted for a gophermap section
whose render fails (constant defined outside src/). -/
def GophermapRenderErrorStr : String := "Error rendering gophermap contents"

/-- Error type returned by fallible operations (`*GophorError` in Go).
Only the distinction error / no-error matters for the claims. -/
inductive GophorError where
  | ioError (path : String)
deriving DecidableEq

/- ------------------------------------------------------------------ -/
/- String helpers mirroring the Go standard-library calls used by the
   source.  They operate on the underlying character lists so that they
   evaluate inside the kernel. -/

/-- Go `line[1:]`: drop the leading type byte. -/
def strTail (s : String) : String := String.mk s.data.tail

/-- Go `strings.HasSuffix`. -/
def strEndsWith (s suffix : String) : Bool := suffix.data.isSuffixOf s.data

/-- Go `strings.TrimSuffix`. -/
def trimSuffix (s suffix : String) : String :=
  if strEndsWith s suffix then String.mk (s.data.take (s.data.length - suffix.data.length))
  else s

/-- Go `strings.HasPrefix` / `bytes.HasPrefix` on whole strings. -/
def strStartsWith (s pre : String) : Bool := pre.data.isPrefixOf s.data

/-- Auxiliary for `strContains`: scan for the pattern at every offset. -/
def containsSubAux (pat : List Char) : List Char → Bool
  | [] => pat.isPrefixOf []
  | c :: rest => pat.isPrefixOf (c :: rest) || containsSubAux pat rest

/-- Whether `pat` occurs as a contiguous substring of `s`. -/
def strContains (s pat : String) : Bool := containsSubAux pat.data s.data

/-- Auxiliary for `replaceAll`: leftmost non-overlapping replacement on
character lists, as performed by Go `strings.Replace(s, pat, rep, -1)`.
`skip` counts pattern characters still to consume after an emitted
replacement, so the recursion is structural on the scanned list. -/
def replaceAllAux (pat rep : List Char) : List Char → Nat → List Char
  | [], _ => []
  | _ :: rest, skip + 1 => replaceAllAux pat rep rest skip
  | c :: rest, 0 =>
    if pat ≠ [] ∧ pat.isPrefixOf (c :: rest) then
      rep ++ replaceAllAux pat rep rest (pat.length - 1)
    else
      c :: replaceAllAux pat rep rest 0

/-- Go `strings.Replace(s, pat, rep, -1)`. -/
def replaceAll (s pat rep : String) : String :=
  String.mk (replaceAllAux pat.data rep.data s.data 0)

/-- Auxiliary for `splitCrLf`: consume characters, emitting a line at each
CR-LF pair; a trailing fragment not terminated by CR-LF is dropped, exactly
as the `bufio.Scanner` split function in `readGophermap` drops it (at EOF
it answers `0, nil, nil`, ending the scan). -/
def splitCrLfAux : List Char → List Char → List String
  | [], _ => []
  | '\r' :: '\n' :: rest, acc => String.mk acc.reverse :: splitCrLfAux rest []
  | c :: rest, acc => splitCrLfAux rest (c :: acc)

/-- The CR-LF strict line scanner of `readGophermap` (`bufferedScan` with
the split function at gophermap.go lines 104-117). -/
def splitCrLf (s : String) : List String := splitCrLfAux s.data []

/- ------------------------------------------------------------------ -/
/- The sequential file cache (src/unnamed/part_002).

   `CFile` stands for the `File` interface value held by a cache entry:
   contents buffer, fresh flag and last-refresh timestamp (the concrete
   implementations `NewRegularFile` / `NewGophermapFile` live outside
   src/; per the spec a successful `LoadContents` stores the loaded
   bytes, sets fresh to true and last-refresh to the current time).

   `fetch` mirrors `FileCache.Fetch` (part_002 lines 126-215) executed by
   a single thread: lock acquisitions order the steps but do not branch.
   `loadFn` stands for the strategy load (`none` = load error), `now` for
   the wall clock read inside a successful load. -/

structure CFile where
  contents : String
  fresh : Bool
  lastRefresh : Int
deriving DecidableEq

structure FileCache where
  cacheMap : List (String × CFile)
  fileList : List String
  size : Nat
deriving DecidableEq

/-- `FileCache.Init` (part_002 lines 116-124): empty map, empty list. -/
def initCache (size : Nat) : FileCache :=
  { cacheMap := [], fileList := [], size := size }

/-- Go map read `fc.CacheMap[path]`. -/
def lookupFile (m : List (String × CFile)) (path : String) : Option CFile :=
  match m with
  | [] => none
  | (p, f) :: rest => if p = path then some f else lookupFile rest path

/-- In-place mutation of the entry object reached through the map (the Go
`File` value is a pointer; `LoadContents` updates it in place). -/
def updateFile (m : List (String × CFile)) (path : String) (f : CFile) :
    List (String × CFile) :=
  m.map (fun pe => if pe.1 = path then (path, f) else pe)

/-- Go `delete(fc.CacheMap, removePath)`. -/
def eraseKey (m : List (String × CFile)) (path : String) : List (String × CFile) :=
  m.filter (fun pe => pe.1 ≠ path)

/-- `fc.FileList.MoveToFront(element)`: a no-op when the element was
already removed from the list (Go checks `e.list == l`), otherwise the
element moves to the front. -/
def moveToFront (l : List String) (path : String) : List String :=
  if path ∈ l then path :: l.erase path else l

/-- `FileCache.Fetch` (part_002 lines 126-215), sequential behaviour.
Returns the served bytes (`none` = the `*GophorError` return) and the
cache after the call.

Hit path: under the entry read lock the fresh flag is read; if stale the
read lock is swapped for the write lock and `LoadContents` is called
unconditionally -- the source performs no second freshness check after the
swap.  Miss path: the new strategy is loaded, the path is pushed to the
list front and inserted into the map, and if the list length then equals
`Size` the list back is deleted from map and list.  In all success paths
the served element is finally moved to the list front (a no-op for an
element that was just evicted). -/
def fetch (loadFn : String → Option String) (now : Int) (fc : FileCache)
    (path : String) : Option String × FileCache :=
  match lookupFile fc.cacheMap path with
  | some file =>
    if file.fresh then
      (some file.contents, { fc with fileList := moveToFront fc.fileList path })
    else
      match loadFn path with
      | none => (none, fc)
      | some c =>
        let file' : CFile := { contents := c, fresh := true, lastRefresh := now }
        (some c, { fc with
                    cacheMap := updateFile fc.cacheMap path file',
                    fileList := moveToFront fc.fileList path })
  | none =>
    match loadFn path with
    | none => (none, fc)
    | some c =>
      let file : CFile := { contents := c, fresh := true, lastRefresh := now }
      let list1 := path :: fc.fileList
      let map1 := (path, file) :: fc.cacheMap
      if list1.length = fc.size then
        let removePath := list1.getLast (List.cons_ne_nil path fc.fileList)
        (some c, { fc with
                    cacheMap := eraseKey map1 removePath,
                    fileList := moveToFront list1.dropLast path })
      else
        (some c, { fc with cacheMap := map1, fileList := moveToFront list1 path })

/-- The cache state after one `Fetch`, for folding over call sequences. -/
def fetchStep (loadFn : String → Option String) (now : Int) (fc : FileCache)
    (path : String) : FileCache :=
  (fetch loadFn now fc path).2

/-- The cache state after a sequence of `Fetch` calls. -/
def runFetches (loadFn : String → Option String) (now : Int) (fc : FileCache)
    (paths : List String) : FileCache :=
  paths.foldl (fetchStep loadFn now) fc

/-- Paths currently present in the cache map. -/
def cacheKeys (fc : FileCache) : List String := fc.cacheMap.map Prod.fst

/-- The map / LRU-list correspondence: the key multiset of the map equals
the element multiset of the list, and the list carries no duplicates. -/
def CacheCorr (fc : FileCache) : Prop :=
  List.Perm (cacheKeys fc) fc.fileList ∧ fc.fileList.Nodup

/-- `checkCacheFreshness` applied to one map entry (part_002 lines 58-78):
stat the path (`statFn`, `none` = stat error, `some tm` = on-disk mtime in
nanoseconds); on error skip, otherwise flip fresh to false when the entry
is fresh and `LastRefresh() < timeModified`. -/
def monitorEntry (statFn : String → Option Int) (pe : String × CFile) :
    String × CFile :=
  match statFn pe.1 with
  | none => pe
  | some tm =>
    if pe.2.fresh && decide (pe.2.lastRefresh < tm) then
      (pe.1, { pe.2 with fresh := false })
    else pe

/-- One iteration of the freshness monitor over a cache
(`checkCacheFreshness`, part_002 lines 53-82). -/
def checkCacheFreshness (statFn : String → Option Int) (fc : FileCache) :
    FileCache :=
  { fc with cacheMap := fc.cacheMap.map (monitorEntry statFn) }

/- ------------------------------------------------------------------ -/
/- The gophermap parser and renderer (src/gophermap.go). -/

/-- A parsed gophermap section (`GophermapSection` interface): either a
static text block (`GophermapText`) or a deferred directory listing
(`GophermapDirListing`, holding the directory path and the hidden names). -/
inductive GophermapSection where
  | text (contents : String)
  | dirListing (path : String) (hidden : List String)
deriving DecidableEq

/-- Line classification outcomes used by the parser switch
(gophermap.go lines 122-185).  The classifier `parseLineType` itself is
defined outside src/. -/
inductive LineType where
  | typeInfoNotStated
  | typeComment
  | typeHiddenFile
  | typeSubGophermap
  | typeExec
  | typeEnd
  | typeEndBeginList
  | typeOther
deriving DecidableEq

/-- Item type characters recognised beyond the directive characters
(README list: the line is kept as a menu line). -/
def recognizedTypeChars : List Char :=
  ['0', '1', '2', '3', '4', '5', '6', '7', '8', '9', 'T', 'g', 'I', '+',
   'i', 'h', 's', 'p', 'd', 'M', ';', 'c', '!']

/-- Modelled from the spec: `parseLineType` is not under src/. Classify a
line by its first byte following the table of spec section 4.3: `#`
comment, `-` hidden file, `=` include, `$` exec, `.` alone last-line, `*`
alone last-line-plus-listing, a recognised type byte a normal menu line,
anything else an implicit info line. -/
def parseLineType (line : String) : LineType :=
  match line.data with
  | [] => .typeInfoNotStated
  | c :: rest =>
    if c = '#' then .typeComment
    else if c = '-' then .typeHiddenFile
    else if c = '=' then .typeSubGophermap
    else if c = '$' then .typeExec
    else if c = '.' then (if rest = [] then .typeEnd else .typeInfoNotStated)
    else if c = '*' then (if rest = [] then .typeEndBeginList else .typeInfoNotStated)
    else if recognizedTypeChars.contains c then .typeOther
    else .typeInfoNotStated

/-- Modelled from the spec: `buildInfoLine` is not under src/. Per spec
section 4.1 an info line uses type byte `i`, selector `-`, and the
configured host and port, terminated by CR-LF. -/
def buildInfoLine (text : String) : String :=
  "i" ++ text ++ "\t" ++ "-" ++ "\t" ++ ServerHostname ++ "\t" ++ ServerPort ++ CrLf

/-- Go `minWidth` (gophermap.go lines 265-271). -/
def minWidth (w : Nat) : Nat := if w ≤ PageWidth then w else PageWidth

/-- The reflow loop of `readIntoGophermap` (lines 242-246): slice the line
into chunks of at most `PageWidth` characters, each wrapped as an info
line. -/
def reflowLine : List Char → String
  | [] => ""
  | c :: rest =>
    let chunkLen := minWidth (c :: rest).length
    buildInfoLine (String.mk ((c :: rest).take chunkLen)) ++
      reflowLine ((c :: rest).drop chunkLen)
termination_by l => l.length
decreasing_by
  simp only [List.length_drop, List.length_cons]
  have : 1 ≤ minWidth (rest.length + 1) := by
    simp only [minWidth, PageWidth]
    split <;> omega
  omega

/-- The LF-inclusive line scanner of `readIntoGophermap` (lines 214-227):
each token keeps its trailing `\n`; a trailing fragment with no `\n` is
dropped at EOF. -/
def splitLfAux : List Char → List Char → List String
  | [], _ => []
  | '\n' :: rest, acc => String.mk (acc.reverse ++ ['\n']) :: splitLfAux rest []
  | c :: rest, acc => splitLfAux rest (c :: acc)

def splitLf (s : String) : List String := splitLfAux s.data []

/-- One scanner callback step of `readIntoGophermap` (lines 228-249). -/
def readIntoStep (acc : String) (line : String) : String :=
  if line = "\n" then acc ++ buildInfoLine ""
  else acc ++ reflowLine (replaceAll line "\n" "").data

/-- `readIntoGophermap` (gophermap.go lines 208-263): read a regular file
(`fs`, with `none` = IO error), convert each Unix line into reflowed info
lines, and ensure the output ends with CR-LF. -/
def readIntoGophermap (fs : String → Option String) (path : String) :
    Except GophorError String :=
  match fs path with
  | none => .error (.ioError path)
  | some src =>
    let contents := (splitLf src).foldl readIntoStep ""
    if strEndsWith contents CrLf then .ok contents
    else .ok (contents ++ CrLf)

/-- Parser state threaded through the scan callback of `readGophermap`:
the accumulated sections, the hidden-names set, the pending directory
listing (`some dir` once a `*` line was seen) and whether the callback
stopped the scan (`return false`, on `.` or `*`). -/
structure ParseState where
  sections : List GophermapSection
  hidden : List String
  dirList : Option String
  stopped : Bool
deriving DecidableEq

def initParseState : ParseState :=
  { sections := [], hidden := [], dirList := none, stopped := false }

/-- After the scan, append the requested directory listing (carrying the
accumulated hidden names) last (gophermap.go lines 200-203). -/
def assembleSections (st : ParseState) : List GophermapSection :=
  match st.dirList with
  | some dir => st.sections ++ [.dirListing dir st.hidden]
  | none => st.sections

/-- The scan loop of `readGophermap` (gophermap.go lines 118-188), one
callback invocation per CR-LF line.  `fuel` bounds the include recursion
depth: the Go original recurses without any bound (spec section 9 notes
that multi-file include cycles are not detected), so `none` models a
recursion that exceeds every finite depth, i.e. does not return.  A
sub-gophermap include re-enters the parser on the target: reading the
target (`fs`) and assembling its sections exactly as `readGophermap`
does. -/
def readGophermapLoop (fuel : Nat) (fs : String → Option String)
    (path : String) (lines : List String) (st : ParseState) :
    Option ParseState :=
  match lines with
  | [] => some st
  | line :: rest =>
    match parseLineType line with
    | .typeInfoNotStated =>
      readGophermapLoop fuel fs path rest
        { st with sections := st.sections ++ [.text (buildInfoLine line)] }
    | .typeComment => readGophermapLoop fuel fs path rest st
    | .typeHiddenFile =>
      readGophermapLoop fuel fs path rest
        { st with hidden := st.hidden ++ [strTail line] }
    | .typeSubGophermap =>
      let target := strTail line
      if strEndsWith target GophermapFileStr then
        if target = path then
          readGophermapLoop fuel fs path rest st
        else
          match fuel with
          | 0 => none
          | fuel' + 1 =>
            match fs target with
            | none =>
              readGophermapLoop (fuel' + 1) fs path rest
                { st with sections := st.sections ++
                    [.text (buildInfoLine ("Error reading subgophermap: " ++ target))] }
            | some src =>
              match readGophermapLoop fuel' fs target (splitCrLf src) initParseState with
              | none => none
              | some subSt =>
                readGophermapLoop (fuel' + 1) fs path rest
                  { st with sections := st.sections ++ assembleSections subSt }
      else
        match readIntoGophermap fs target with
        | .error _ =>
          readGophermapLoop fuel fs path rest
            { st with sections := st.sections ++
                [.text (buildInfoLine ("Error reading subgophermap: " ++ target))] }
        | .ok fileContents =>
          readGophermapLoop fuel fs path rest
            { st with sections := st.sections ++ [.text fileContents] }
    | .typeExec =>
      readGophermapLoop fuel fs path rest
        { st with sections := st.sections ++
            [.text (buildInfoLine "Error: inline shell commands not yet supported")] }
    | .typeEnd => some { st with stopped := true }
    | .typeEndBeginList =>
      some { st with dirList := some (trimSuffix path GophermapFileStr), stopped := true }
    | .typeOther =>
      readGophermapLoop fuel fs path rest
        { st with sections := st.sections ++
            [.text (replaceAll line ReplaceStrHostname ServerHostname ++ CrLf)] }
termination_by (fuel, lines.length)

/-- `readGophermap` (gophermap.go lines 96-206): scan the source file into
sections; `none` models unbounded include recursion (no return). -/
def readGophermap (fuel : Nat) (fs : String → Option String) (path : String) :
    Option (Except GophorError (List GophermapSection)) :=
  match fs path with
  | none => some (.error (.ioError path))
  | some src =>
    match readGophermapLoop fuel fs path (splitCrLf src) initParseState with
    | none => none
    | some st => some (.ok (assembleSections st))

/-- Render of a single section.  `GophermapText.Render` returns the stored
bytes (lines 71-73); `GophermapDirListing.Render` calls `listDir` (lines
92-94), which lives outside src/ and is therefore passed in as `listDirFn`
(it may fail with an IoError). -/
def renderSection (listDirFn : String → List String → Except GophorError String) :
    GophermapSection → Except GophorError String
  | .text contents => .ok contents
  | .dirListing path hidden => listDirFn path hidden

/-- The bytes a section contributes to the page: its render result, or the
single substituted error info line when the render fails (lines 26-29). -/
def renderSectionOrError
    (listDirFn : String → List String → Except GophorError String)
    (s : GophermapSection) : String :=
  match renderSection listDirFn s with
  | .ok content => content
  | .error _ => buildInfoLine GophermapRenderErrorStr

structure GophermapContents where
  path : String
  sections : List GophermapSection

/-- `GophermapContents.Render` (gophermap.go lines 20-34): concatenate the
sections, substituting one error info line for a failing section.  The Go
signature returns only `[]byte`: the render cannot fail. -/
def GophermapContents.Render
    (listDirFn : String → List String → Except GophorError String)
    (gc : GophermapContents) : String :=
  gc.sections.foldl (fun acc s => acc ++ renderSectionOrError listDirFn s) ""

/- ------------------------------------------------------------------ -/
/- Policy bootstrap (src/unnamed/part_000).

   `cachePolicyFiles` belongs to a revision whose cache exposes
   `Config.FileCache.CacheMap.Put`; that cache implementation is not under
   src/, so the entry type, `NewFile`, the generated strategy load and the
   fresh-hit Fetch behaviour are modelled from the spec (sections 3, 4.6
   and 4.8). -/

/-- `GeneratedFileContents` (the in-memory content strategy holding a
pre-computed buffer). -/
structure GeneratedFileContents where
  contents : String

/-- Modelled from the spec: a cacheable file wrapping a content strategy
with a fresh flag; `NewFile` starts not-yet-loaded. -/
structure BootFile where
  contents : String
  fresh : Bool
deriving DecidableEq

/-- Modelled from the spec: `NewFile` wraps the strategy; the entry is not
fresh until a load succeeds. -/
def NewFile (fc : GeneratedFileContents) : BootFile :=
  { contents := fc.contents, fresh := false }

/-- Modelled from the spec: `LoadContents` on a generated strategy is a
no-op on the buffer that marks the entry fresh (spec section 3,
GeneratedBytes). -/
def loadContentsGenerated (f : BootFile) : BootFile := { f with fresh := true }

/-- Modelled from the spec: `CacheMap.Put` stores the file under the path
(a Go map assignment). -/
def cacheMapPut (m : List (String × BootFile)) (path : String) (f : BootFile) :
    List (String × BootFile) :=
  (path, f) :: m.filter (fun pe => pe.1 ≠ path)

/-- Association-list lookup standing for the Go map read. -/
def bootLookup (m : List (String × BootFile)) (path : String) : Option BootFile :=
  match m with
  | [] => none
  | (p, f) :: rest => if p = path then some f else bootLookup rest path

/-- `generateCapsTxt` (part_000 lines 47-71), parameterised by the runtime
configuration values it reads (`GophorVersion`, `Config.Description`,
`Config.Geolocation`, `Config.AdminEmail`). -/
def generateCapsTxt (version description geolocation adminEmail : String) : String :=
  "CAPS" ++ DOSLineEnd
  ++ DOSLineEnd
  ++ "# This is an automatically generated" ++ DOSLineEnd
  ++ "# server policy file: caps.txt" ++ DOSLineEnd
  ++ DOSLineEnd
  ++ "CapsVersion=1" ++ DOSLineEnd
  ++ "ExpireCapsAfter=1800" ++ DOSLineEnd
  ++ DOSLineEnd
  ++ "PathDelimeter=/" ++ DOSLineEnd
  ++ "PathIdentity=." ++ DOSLineEnd
  ++ "PathParent=.." ++ DOSLineEnd
  ++ "PathParentDouble=FALSE" ++ DOSLineEnd
  ++ "PathEscapeCharacter=\\" ++ DOSLineEnd
  ++ "PathKeepPreDelimeter=FALSE" ++ DOSLineEnd
  ++ DOSLineEnd
  ++ "ServerSoftware=Gophor" ++ DOSLineEnd
  ++ "ServerSoftwareVersion=" ++ version ++ DOSLineEnd
  ++ "ServerDescription=" ++ description ++ DOSLineEnd
  ++ "ServerGeolocationString=" ++ geolocation ++ DOSLineEnd
  ++ "ServerDefaultEncoding=ascii" ++ DOSLineEnd
  ++ DOSLineEnd
  ++ "ServerAdmin=" ++ adminEmail ++ DOSLineEnd

/-- `generateRobotsTxt` (part_000 lines 73-81). -/
def generateRobotsTxt : String :=
  "Usage-agent: *" ++ DOSLineEnd
  ++ "Disallow: *" ++ DOSLineEnd
  ++ DOSLineEnd
  ++ "Crawl-delay: 99999" ++ DOSLineEnd
  ++ DOSLineEnd
  ++ "# This server does not support scraping" ++ DOSLineEnd

/-- `cachePolicyFiles` (part_000 lines 7-45): for each of `/caps.txt` and
`/robots.txt`, when the on-disk stat fails (`statFn _ = none`), generate
the buffer, wrap it in a generated strategy, load it (marking it fresh)
and put it into the cache map.  Runs single-threaded before any
concurrent activity. -/
def cachePolicyFiles (statFn : String → Option Unit)
    (version description geolocation adminEmail : String)
    (m : List (String × BootFile)) : List (String × BootFile) :=
  let m1 :=
    match statFn "/caps.txt" with
    | some _ => m
    | none =>
      cacheMapPut m "/caps.txt"
        (loadContentsGenerated
          (NewFile ⟨generateCapsTxt version description geolocation adminEmail⟩))
  match statFn "/robots.txt" with
  | some _ => m1
  | none =>
    cacheMapPut m1 "/robots.txt"
      (loadContentsGenerated (NewFile ⟨generateRobotsTxt⟩))

/-- Modelled from the spec: the Fetch fast path of the bootstrap-era cache
(spec section 4.6 step 2 with section 2: cache hit and fresh implies
render, and a GeneratedBytes render returns the stored buffer). -/
def bootFetchFresh (m : List (String × BootFile)) (path : String) : Option String :=
  match bootLookup m path with
  | none => none
  | some f => if f.fresh then some f.contents else none

/- ------------------------------------------------------------------ -/
/- Two concurrent Fetches of the same stale cached path (part_002 lines
   126-152 and 203-205, the hit path).

   Both threads hold the cache map read lock throughout (it admits
   concurrent readers and the hit path never upgrades it), so only the
   entry lock and the entry state are modelled.  Each thread runs, step by
   step: RLock; read the fresh flag (keeping the read lock and moving to
   the content read when fresh, else continuing); RUnlock; Lock;
   LoadContents (which succeeds, incrementing the load counter and setting
   fresh); Unlock; RLock; read contents and RUnlock.  The source calls
   LoadContents immediately after acquiring the write lock, without
   re-reading the fresh flag. -/

/-- Program counter of one thread executing the Fetch hit path. -/
inductive TPc where
  | tStart      -- before File.RLock()            (line 133)
  | tReading    -- holds read lock, about to test IsFresh (line 136)
  | tStale      -- saw fresh = false, before File.RUnlock() (line 138)
  | tNoLock     -- before File.Lock()             (line 139)
  | tWriting    -- holds write lock, about to call LoadContents (line 141)
  | tLoaded     -- load done, before File.Unlock() (line 150)
  | tUnlocked2  -- before the re-acquiring File.RLock() (line 151)
  | tReread     -- holds read lock, about to read Contents (line 204)
  | tDone       -- finished (read lock released, line 205)
deriving DecidableEq

/-- Shared entry state plus both program counters.  `loads` counts the
`LoadContents` invocations on this entry in aggregate. -/
structure EntrySys where
  fresh : Bool
  readers : Nat
  writerHeld : Bool
  loads : Nat
  pcA : TPc
  pcB : TPc
deriving DecidableEq

/-- Both threads poised to Fetch the same stale entry. -/
def initStale : EntrySys :=
  { fresh := false, readers := 0, writerHeld := false, loads := 0,
    pcA := .tStart, pcB := .tStart }

/-- One step of a single thread at program counter `pc`; `none` when the
step is not enabled (a lock acquisition that must wait, or the thread is
done).  Returns the updated entry state and program counter. -/
def threadStep (s : EntrySys) (pc : TPc) : Option (Bool × Nat × Bool × Nat × TPc) :=
  match pc with
  | .tStart =>
    if s.writerHeld then none
    else some (s.fresh, s.readers + 1, s.writerHeld, s.loads, .tReading)
  | .tReading =>
    if s.fresh then some (s.fresh, s.readers, s.writerHeld, s.loads, .tReread)
    else some (s.fresh, s.readers, s.writerHeld, s.loads, .tStale)
  | .tStale => some (s.fresh, s.readers - 1, s.writerHeld, s.loads, .tNoLock)
  | .tNoLock =>
    if s.writerHeld || decide (0 < s.readers) then none
    else some (s.fresh, s.readers, true, s.loads, .tWriting)
  | .tWriting => some (true, s.readers, s.writerHeld, s.loads + 1, .tLoaded)
  | .tLoaded => some (s.fresh, s.readers, false, s.loads, .tUnlocked2)
  | .tUnlocked2 =>
    if s.writerHeld then none
    else some (s.fresh, s.readers + 1, s.writerHeld, s.loads, .tReread)
  | .tReread => some (s.fresh, s.readers - 1, s.writerHeld, s.loads, .tDone)
  | .tDone => none

/-- One scheduled step: `tid = false` advances thread A, `tid = true`
advances thread B. -/
def sysStep (s : EntrySys) (tid : Bool) : Option EntrySys :=
  if tid then
    match threadStep s s.pcB with
    | none => none
    | some (fresh, readers, writerHeld, loads, pc) =>
      some { fresh := fresh, readers := readers, writerHeld := writerHeld,
             loads := loads, pcA := s.pcA, pcB := pc }
  else
    match threadStep s s.pcA with
    | none => none
    | some (fresh, readers, writerHeld, loads, pc) =>
      some { fresh := fresh, readers := readers, writerHeld := writerHeld,
             loads := loads, pcA := pc, pcB := s.pcB }

/-- Run a schedule (a list of thread ids); `none` if any scheduled step is
not enabled. -/
def sysRun (sched : List Bool) (s : EntrySys) : Option EntrySys :=
  match sched with
  | [] => some s
  | tid :: rest =>
    match sysStep s tid with
    | none => none
    | some s' => sysRun rest s'

/-- A schedule under which both stale Fetches pass the read-locked
freshness test before either takes the write lock: thread A reloads, and
thread B, having already observed staleness, reloads again. -/
def doubleLoadSched : List Bool :=
  [false, true, false, true, false, true,
   false, false, false,
   true, true, true,
   false, true, false, true]

/- ------------------------------------------------------------------ -/
/- Two concurrent Fetches of the same absent path (part_002 lines
   126-130 and 153-214, the miss path).

   Here the cache map lock itself is contended, so it is modelled
   (readers count and writer flag), together with the shared cache
   contents relevant to the map/list correspondence: whether the map
   holds the path (`mapHas`; a Go map assignment overwrites, so the map
   never holds it twice), the list length (`listLen`) and the number of
   list elements carrying the path (`pathCount`; `PushFront` adds one,
   and each thread's final `MoveToFront` moves its own element so the
   count is unchanged).  The cache starts empty with capacity `size`.
   Everything between `CacheMutex.Lock()` and `CacheMutex.Unlock()`
   (lines 156-196: the factory, the load, `PushFront`, the map insert
   and the eviction test) is one step, sound because the write lock
   excludes every other thread for its whole duration.  The source
   takes the map write lock without re-checking the map for the path
   (line 159 runs unconditionally after line 156). -/

/-- Program counter of one thread executing the Fetch miss path. -/
inductive MPc where
  | mStart   -- before CacheMutex.RLock()                     (line 128)
  | mLookup  -- holds map read lock, about to read the map    (line 129)
  | mMissed  -- saw the path absent, before CacheMutex.RUnlock() (line 155)
  | mNoLock  -- before CacheMutex.Lock()                      (line 156)
  | mCrit    -- holds map write lock: factory, load, PushFront, map insert, eviction test (lines 159-193)
  | mUnlockW -- before CacheMutex.Unlock()                    (line 196)
  | mRelock  -- before the re-acquiring CacheMutex.RLock()    (line 197)
  | mServe   -- holds map read lock: entry read lock, Contents, MoveToFront under ListMutex (lines 200-210)
  | mFinal   -- before CacheMutex.RUnlock()                   (line 212)
  | mDone    -- finished
  | mHitPath -- the thread found the path in the map (line 131); continuation modelled separately (see the stale-hit system); unreached from an empty map before any insert
  | mEvict   -- the eviction test fired; unreachable here: from an empty cache two inserts reach list length 2 < 5
deriving DecidableEq

/-- Shared cache state plus both program counters for the miss race. -/
structure MissSys where
  mapHas : Bool
  listLen : Nat
  pathCount : Nat
  readers : Nat
  writerHeld : Bool
  size : Nat
  pcA : MPc
  pcB : MPc
deriving DecidableEq

/-- Both threads poised to Fetch the same absent path from an empty
cache of capacity 5. -/
def initMiss : MissSys :=
  { mapHas := false, listLen := 0, pathCount := 0, readers := 0,
    writerHeld := false, size := 5, pcA := .mStart, pcB := .mStart }

/-- One step of a single miss-path thread at `pc`; `none` when the step
is not enabled.  Returns (mapHas, listLen, pathCount, readers,
writerHeld, pc). -/
def missThreadStep (s : MissSys) (pc : MPc) :
    Option (Bool × Nat × Nat × Nat × Bool × MPc) :=
  match pc with
  | .mStart =>
    if s.writerHeld then none
    else some (s.mapHas, s.listLen, s.pathCount, s.readers + 1, s.writerHeld, .mLookup)
  | .mLookup =>
    if s.mapHas then some (s.mapHas, s.listLen, s.pathCount, s.readers, s.writerHeld, .mHitPath)
    else some (s.mapHas, s.listLen, s.pathCount, s.readers, s.writerHeld, .mMissed)
  | .mMissed => some (s.mapHas, s.listLen, s.pathCount, s.readers - 1, s.writerHeld, .mNoLock)
  | .mNoLock =>
    if s.writerHeld || decide (0 < s.readers) then none
    else some (s.mapHas, s.listLen, s.pathCount, s.readers, true, .mCrit)
  | .mCrit =>
    if s.listLen + 1 = s.size then
      some (true, s.listLen + 1, s.pathCount + 1, s.readers, s.writerHeld, .mEvict)
    else
      some (true, s.listLen + 1, s.pathCount + 1, s.readers, s.writerHeld, .mUnlockW)
  | .mUnlockW => some (s.mapHas, s.listLen, s.pathCount, s.readers, false, .mRelock)
  | .mRelock =>
    if s.writerHeld then none
    else some (s.mapHas, s.listLen, s.pathCount, s.readers + 1, s.writerHeld, .mServe)
  | .mServe => some (s.mapHas, s.listLen, s.pathCount, s.readers, s.writerHeld, .mFinal)
  | .mFinal => some (s.mapHas, s.listLen, s.pathCount, s.readers - 1, s.writerHeld, .mDone)
  | .mDone => none
  | .mHitPath => none
  | .mEvict => none

/-- One scheduled step of the miss-race system: `tid = false` advances
thread A, `tid = true` advances thread B. -/
def missSysStep (s : MissSys) (tid : Bool) : Option MissSys :=
  if tid then
    match missThreadStep s s.pcB with
    | none => none
    | some (mapHas, listLen, pathCount, readers, writerHeld, pc) =>
      some { mapHas := mapHas, listLen := listLen, pathCount := pathCount,
             readers := readers, writerHeld := writerHeld, size := s.size,
             pcA := s.pcA, pcB := pc }
  else
    match missThreadStep s s.pcA with
    | none => none
    | some (mapHas, listLen, pathCount, readers, writerHeld, pc) =>
      some { mapHas := mapHas, listLen := listLen, pathCount := pathCount,
             readers := readers, writerHeld := writerHeld, size := s.size,
             pcA := pc, pcB := s.pcB }

/-- Run a schedule of the miss-race system; `none` if any scheduled step
is not enabled. -/
def missRun (sched : List Bool) (s : MissSys) : Option MissSys :=
  match sched with
  | [] => some s
  | tid :: rest =>
    match missSysStep s tid with
    | none => none
    | some s' => missRun rest s'

/-- A schedule under which both Fetches look the path up under the map
read lock before either takes the map write lock: both observe a miss,
then each in turn pushes the path onto the LRU list and inserts it into
the map (the second insert overwriting the first). -/
def doubleMissSched : List Bool :=
  [false, true, false, true, false, true,
   false, false, false, false, false, false,
   true, true, true, true, true, true]

/-- The final state reached by `doubleMissSched`: all locks released and
both Fetches complete, with the path twice in the LRU list but once in
the map. -/
def doubleMissFinal : MissSys :=
  { mapHas := true, listLen := 2, pathCount := 2, readers := 0,
    writerHeld := false, size := 5, pcA := .mDone, pcB := .mDone }

/- ------------------------------------------------------------------ -/
/- Helper lemmas. -/

lemma monitorEntry_fst (statFn : String → Option Int) (pe : String × CFile) :
    (monitorEntry statFn pe).1 = pe.1 := by
  unfold monitorEntry
  cases statFn pe.1 with
  | none => rfl
  | some tm => dsimp only; split <;> rfl

lemma cacheKeys_checkCacheFreshness (statFn : String → Option Int) (fc : FileCache) :
    cacheKeys (checkCacheFreshness statFn fc) = cacheKeys fc := by
  unfold cacheKeys checkCacheFreshness
  rw [List.map_map]
  exact List.map_congr_left (fun pe _ => monitorEntry_fst statFn pe)

lemma render_foldl_shift (f : GophermapSection → String)
    (l : List GophermapSection) (acc : String) :
    l.foldl (fun a s => a ++ f s) acc = acc ++ l.foldl (fun a s => a ++ f s) "" := by
  induction l generalizing acc with
  | nil => simp [String.append_empty]
  | cons s rest ih =>
    simp only [List.foldl_cons]
    rw [ih (acc ++ f s), ih ("" ++ f s), String.empty_append, String.append_assoc]

/- ------------------------------------------------------------------ -/
/- Claim theorems. -/

/-- C5: one iteration of the freshness monitor never removes an entry and
never reorders or touches the LRU list; per entry it only rewrites the
fresh flag, to `false` exactly when the entry was fresh and the on-disk
modification time is strictly greater than the last-refresh timestamp; a
stat error leaves the entry unchanged (the `none` branch of the match);
contents and last-refresh are never touched (no load happens). -/
theorem monitor_flips_fresh_only (statFn : String → Option Int) (fc : FileCache)
    (p : String) (e : CFile) :
    (checkCacheFreshness statFn fc).fileList = fc.fileList ∧
    cacheKeys (checkCacheFreshness statFn fc) = cacheKeys fc ∧
    (checkCacheFreshness statFn fc).cacheMap.length = fc.cacheMap.length ∧
    monitorEntry statFn (p, e) =
      (p, { e with fresh := e.fresh &&
            !(match statFn p with
              | none => false
              | some tm => decide (e.lastRefresh < tm)) }) ∧
    ((monitorEntry statFn (p, e)).2.fresh = false ↔
      (e.fresh = false ∨ ∃ tm, statFn p = some tm ∧ e.lastRefresh < tm)) ∧
    (monitorEntry statFn (p, e)).2.contents = e.contents ∧
    (monitorEntry statFn (p, e)).2.lastRefresh = e.lastRefresh := by
  obtain ⟨ec, ef, el⟩ := e
  refine ⟨rfl, cacheKeys_checkCacheFreshness statFn fc, List.length_map _ _, ?_, ?_, ?_, ?_⟩
  · cases h : statFn p with
    | none => simp [monitorEntry, h]
    | some tm =>
      by_cases hlt : el < tm <;> cases ef <;> simp [monitorEntry, h, hlt]
  · cases h : statFn p with
    | none => simp [monitorEntry, h]
    | some tm =>
      by_cases hlt : el < tm <;> cases ef <;> simp [monitorEntry, h, hlt]
  · cases h : statFn p with
    | none => simp [monitorEntry, h]
    | some tm => simp only [monitorEntry, h]; split <;> rfl
  · cases h : statFn p with
    | none => simp [monitorEntry, h]
    | some tm => simp only [monitorEntry, h]; split <;> rfl

/-- C6: rendering a parsed gophermap is total (the Lean embedding, like
the Go signature, returns plain bytes) and equals the concatenation of the
per-section contributions, where a section whose render fails contributes
exactly the single substituted error info line
(`renderSectionOrError`). -/
theorem gophermap_render_total_concat
    (listDirFn : String → List String → Except GophorError String)
    (p p' : String) (s : GophermapSection) (rest : List GophermapSection) :
    GophermapContents.Render listDirFn ⟨p, []⟩ = "" ∧
    GophermapContents.Render listDirFn ⟨p, s :: rest⟩ =
      renderSectionOrError listDirFn s ++
        GophermapContents.Render listDirFn ⟨p', rest⟩ := by
  refine ⟨rfl, ?_⟩
  show (s :: rest).foldl _ "" = _
  simp only [List.foldl_cons, String.empty_append]
  exact render_foldl_shift (renderSectionOrError listDirFn) rest
    (renderSectionOrError listDirFn s)

/-- C3: evaluating the cache at capacity 2 on the successful Fetch
sequence A, B, A, C.  The spec expects the final contents {A, C} with A at
the front and only B evicted; the code instead evicts on reaching
capacity right after every insert, so each insert (B, then A again, then
C) evicts the sole other resident entry, and the final cache holds only C. -/
theorem fetch_lru_sequence_eval :
    cacheKeys (runFetches (fun _ => some "x") 0 (initCache 2) ["A", "B", "A", "C"]) = ["C"] ∧
    (runFetches (fun _ => some "x") 0 (initCache 2) ["A", "B", "A", "C"]).fileList = ["C"] ∧
    lookupFile (runFetches (fun _ => some "x") 0 (initCache 2) ["A", "B", "A", "C"]).cacheMap "A"
      = none ∧
    lookupFile (runFetches (fun _ => some "x") 0 (initCache 2) ["A", "B", "A", "C"]).cacheMap "B"
      = none := by
  refine ⟨by decide, by decide, by decide, by decide⟩

/-- C2 counterexample: a cache initialized with capacity 0 exceeds the
claimed bound `len(map) ≤ capacity` after a single successful Fetch
(eviction triggers only when the list length equals the size, which never
happens when the size is 0). -/
theorem fetch_capacity_zero_cex :
    ¬ ((fetchStep (fun _ => some "x") 0 (initCache 0) "a").cacheMap.length
        ≤ (initCache 0).size) := by decide

/-- C10 counterexample: at capacity 0 a Fetch that inserts a new entry
(the path was absent) leaves 1 entry, not at most capacity − 1. -/
theorem fetch_insert_capacity_zero_cex :
    lookupFile (initCache 0).cacheMap "a" = none ∧
    (runFetches (fun _ => some "x") 0 (initCache 0) ["a"]).cacheMap.length = 1 ∧
    ¬ ((runFetches (fun _ => some "x") 0 (initCache 0) ["a"]).cacheMap.length + 1
        ≤ (initCache 0).size) := by
  refine ⟨by decide, by decide, by decide⟩

/-- The final state reached by `doubleLoadSched`: both Fetches completed
and `LoadContents` ran twice on the single stale entry. -/
def doubleLoadFinal : EntrySys :=
  { fresh := true, readers := 0, writerHeld := false, loads := 2,
    pcA := .tDone, pcB := .tDone }

/-- C1 counterexample: an interleaving of two Fetches of the same stale
cached path in which both threads observe staleness under the entry read
lock, release it, and then take the entry write lock one after the other;
`LoadContents` runs twice in aggregate, because the source calls it
immediately after acquiring the write lock without re-checking the fresh
flag. -/
theorem fetch_stale_double_reload_cex :
    sysRun doubleLoadSched initStale = some doubleLoadFinal ∧
    doubleLoadFinal.loads = 2 ∧
    doubleLoadFinal.pcA = TPc.tDone ∧ doubleLoadFinal.pcB = TPc.tDone := by
  refine ⟨by decide, rfl, rfl, rfl⟩

/-- C4: the map/list correspondence fails at a state observable outside
the map-write critical section.  Two concurrent Fetches of the same
absent path can both look it up under the map read lock before either
takes the map write lock; because the miss path never re-checks the map
after acquiring the write lock (part_002 line 159 runs unconditionally
after line 156), both push the path onto the LRU list and insert it into
the map, the second insert overwriting the first.  After both Fetches
complete and every lock is released, the list carries the path twice
while the map holds it once -- the claimed exactly-once property is
violated (and a later eviction of the stale duplicate element would
delete the live map entry). -/
theorem fetch_concurrent_miss_duplicate_eval :
    missRun doubleMissSched initMiss = some doubleMissFinal ∧
    doubleMissFinal.mapHas = true ∧
    doubleMissFinal.pathCount = 2 ∧
    doubleMissFinal.readers = 0 ∧
    doubleMissFinal.writerHeld = false ∧
    doubleMissFinal.pcA = MPc.mDone ∧ doubleMissFinal.pcB = MPc.mDone := by
  refine ⟨by decide, rfl, rfl, rfl, rfl, rfl, rfl⟩

/- ------------------------------------------------------------------ -/
/- Cache invariant machinery for the Fetch protocol. -/

lemma lookupFile_none_not_mem {m : List (String × CFile)} {p : String}
    (h : lookupFile m p = none) : p ∉ m.map Prod.fst := by
  induction m with
  | nil => simp
  | cons pe rest ih =>
    simp only [lookupFile] at h
    by_cases hp : pe.1 = p
    · simp [hp] at h
    · simp only [hp, if_false] at h
      simp only [List.map_cons, List.mem_cons]
      rintro (heq | hmem)
      · exact hp heq.symm
      · exact ih h hmem

lemma updateFile_keys (m : List (String × CFile)) (p : String) (f : CFile) :
    (updateFile m p f).map Prod.fst = m.map Prod.fst := by
  unfold updateFile
  rw [List.map_map]
  refine List.map_congr_left (fun pe _ => ?_)
  by_cases hp : pe.1 = p <;> simp [hp]

lemma eraseKey_keys (m : List (String × CFile)) (p : String) :
    (eraseKey m p).map Prod.fst = (m.map Prod.fst).filter (fun q => q ≠ p) := by
  unfold eraseKey
  induction m with
  | nil => rfl
  | cons pe rest ih =>
    simp only [List.filter_cons, List.map_cons]
    by_cases hp : pe.1 = p
    · simp only [hp, ne_eq, not_true_eq_false, decide_False, Bool.false_eq_true, if_false]
      exact ih
    · simp only [ne_eq, hp, not_false_eq_true, decide_True, if_true, List.map_cons, ih]

lemma moveToFront_perm (l : List String) (p : String) :
    List.Perm (moveToFront l p) l := by
  unfold moveToFront
  by_cases hm : p ∈ l
  · simpa [hm] using (List.perm_cons_erase hm).symm
  · simp [hm]

lemma moveToFront_nodup {l : List String} (p : String) (h : l.Nodup) :
    (moveToFront l p).Nodup := ((moveToFront_perm l p).nodup_iff).mpr h

lemma moveToFront_length (l : List String) (p : String) :
    (moveToFront l p).length = l.length := (moveToFront_perm l p).length_eq

lemma filter_ne_last (l : List String) (a : String) (ha : a ∉ l) :
    (l ++ [a]).filter (fun q => q ≠ a) = l := by
  rw [List.filter_append]
  have h1 : l.filter (fun q => q ≠ a) = l :=
    List.filter_eq_self.mpr (fun b hb => by
      simp only [ne_eq, decide_eq_true_eq]
      exact fun heq => ha (heq ▸ hb))
  have h2 : [a].filter (fun q => q ≠ a) = [] := by simp
  rw [h1, h2, List.append_nil]

/-- Core preservation lemma for `fetch`: the map/list correspondence is
preserved, the configured size never changes, and a list strictly below
capacity stays strictly below capacity. -/
lemma fetch_pres (loadFn : String → Option String) (now : Int) (fc : FileCache)
    (path : String) (h : CacheCorr fc) :
    CacheCorr (fetch loadFn now fc path).2 ∧
    (fetch loadFn now fc path).2.size = fc.size ∧
    (fc.fileList.length < fc.size → (fetch loadFn now fc path).2.fileList.length < fc.size) := by
  obtain ⟨hperm, hnodup⟩ := h
  cases hl : lookupFile fc.cacheMap path with
  | some file =>
    have hmove : List.Perm (fc.cacheMap.map Prod.fst) (moveToFront fc.fileList path) :=
      hperm.trans (moveToFront_perm fc.fileList path).symm
    cases hf : file.fresh with
    | true =>
      have hres : (fetch loadFn now fc path).2
          = { fc with fileList := moveToFront fc.fileList path } := by
        simp [fetch, hl, hf]
      rw [hres]
      exact ⟨⟨hmove, moveToFront_nodup path hnodup⟩, rfl,
        fun hlen => by simpa [moveToFront_length] using hlen⟩
    | false =>
      cases he : loadFn path with
      | none =>
        have hres : (fetch loadFn now fc path).2 = fc := by
          simp [fetch, hl, hf, he]
        rw [hres]
        exact ⟨⟨hperm, hnodup⟩, rfl, fun hlen => hlen⟩
      | some c =>
        have hres : (fetch loadFn now fc path).2
            = { fc with
                  cacheMap := updateFile fc.cacheMap path ⟨c, true, now⟩,
                  fileList := moveToFront fc.fileList path } := by
          simp [fetch, hl, hf, he]
        rw [hres]
        refine ⟨⟨?_, moveToFront_nodup path hnodup⟩, rfl,
          fun hlen => by simpa [moveToFront_length] using hlen⟩
        show List.Perm ((updateFile fc.cacheMap path _).map Prod.fst) _
        rw [updateFile_keys]
        exact hmove
  | none =>
    cases he : loadFn path with
    | none =>
      have hres : (fetch loadFn now fc path).2 = fc := by
        simp [fetch, hl, he]
      rw [hres]
      exact ⟨⟨hperm, hnodup⟩, rfl, fun hlen => hlen⟩
    | some c =>
      have hpk : path ∉ fc.cacheMap.map Prod.fst := lookupFile_none_not_mem hl
      have hpl : path ∉ fc.fileList := fun hm => hpk (hperm.mem_iff.mpr hm)
      have hnodup1 : (path :: fc.fileList).Nodup := List.nodup_cons.mpr ⟨hpl, hnodup⟩
      have hperm1 : List.Perm (path :: fc.cacheMap.map Prod.fst) (path :: fc.fileList) :=
        hperm.cons path
      have hne : (path :: fc.fileList) ≠ [] := List.cons_ne_nil path fc.fileList
      by_cases hcap : (path :: fc.fileList).length = fc.size
      · have hres : (fetch loadFn now fc path).2
            = { fc with
                  cacheMap := eraseKey ((path, ⟨c, true, now⟩) :: fc.cacheMap)
                    ((path :: fc.fileList).getLast hne),
                  fileList := moveToFront (path :: fc.fileList).dropLast path } := by
          simp only [fetch, hl, he]
          rw [if_pos hcap]
        rw [hres]
        have hdecomp : (path :: fc.fileList).dropLast ++
            [(path :: fc.fileList).getLast hne] = path :: fc.fileList :=
          List.dropLast_append_getLast hne
        have hnd2 : ((path :: fc.fileList).dropLast ++
            [(path :: fc.fileList).getLast hne]).Nodup := by
          rw [hdecomp]; exact hnodup1
        have hrout : (path :: fc.fileList).getLast hne ∉ (path :: fc.fileList).dropLast := by
          intro hmem
          exact (List.disjoint_of_nodup_append hnd2) hmem (by simp)
        have hfilter : (path :: fc.fileList).filter
              (fun q => q ≠ (path :: fc.fileList).getLast hne)
            = (path :: fc.fileList).dropLast := by
          have h2 := filter_ne_last (path :: fc.fileList).dropLast
            ((path :: fc.fileList).getLast hne) hrout
          rwa [hdecomp] at h2
        have hperm2 : List.Perm
            ((eraseKey ((path, ⟨c, true, now⟩) :: fc.cacheMap)
                ((path :: fc.fileList).getLast hne)).map Prod.fst)
            ((path :: fc.fileList).dropLast) := by
          rw [eraseKey_keys, ← hfilter]
          exact (hperm1.filter (fun q => q ≠ (path :: fc.fileList).getLast hne))
        have hndrop : (path :: fc.fileList).dropLast.Nodup :=
          (List.dropLast_sublist (path :: fc.fileList)).nodup hnodup1
        refine ⟨⟨?_, moveToFront_nodup path hndrop⟩, rfl, fun _ => ?_⟩
        · exact hperm2.trans (moveToFront_perm _ path).symm
        · show (moveToFront (path :: fc.fileList).dropLast path).length < fc.size
          have hcap2 : fc.fileList.length + 1 = fc.size := by simpa using hcap
          rw [moveToFront_length, List.length_dropLast, List.length_cons]
          omega
      · have hres : (fetch loadFn now fc path).2
            = { fc with
                  cacheMap := (path, ⟨c, true, now⟩) :: fc.cacheMap,
                  fileList := moveToFront (path :: fc.fileList) path } := by
          simp only [fetch, hl, he]
          rw [if_neg hcap]
        rw [hres]
        refine ⟨⟨?_, moveToFront_nodup path hnodup1⟩, rfl, fun hlen => ?_⟩
        · exact hperm1.trans (moveToFront_perm _ path).symm
        · show (moveToFront (path :: fc.fileList) path).length < fc.size
          have hcap2 : ¬ (fc.fileList.length + 1 = fc.size) := by simpa using hcap
          rw [moveToFront_length, List.length_cons]
          omega

/-- The invariant carried through a sequence of Fetches. -/
lemma runFetches_pres (loadFn : String → Option String) (now : Int)
    (paths : List String) (fc : FileCache) (h : CacheCorr fc)
    (hlen : fc.fileList.length < fc.size) :
    CacheCorr (runFetches loadFn now fc paths) ∧
    (runFetches loadFn now fc paths).size = fc.size ∧
    (runFetches loadFn now fc paths).fileList.length < fc.size := by
  induction paths generalizing fc with
  | nil => exact ⟨h, rfl, hlen⟩
  | cons p rest ih =>
    obtain ⟨h1, h2, h3⟩ := fetch_pres loadFn now fc p h
    have hstep_size : (fetchStep loadFn now fc p).size = fc.size := h2
    have hstep_len : (fetchStep loadFn now fc p).fileList.length
        < (fetchStep loadFn now fc p).size := by
      show (fetch loadFn now fc p).2.fileList.length < (fetch loadFn now fc p).2.size
      rw [h2]
      exact h3 hlen
    obtain ⟨g1, g2, g3⟩ := ih (fetchStep loadFn now fc p) h1 hstep_len
    refine ⟨g1, ?_, ?_⟩
    · show (runFetches loadFn now (fetchStep loadFn now fc p) rest).size = fc.size
      rw [g2, hstep_size]
    · show (runFetches loadFn now (fetchStep loadFn now fc p) rest).fileList.length < fc.size
      rw [← hstep_size]
      exact g3

/-- C2 (amended: capacity at least 1): for every cache initialized with
capacity `C ≥ 1` and every finite sequence of Fetch calls, the number of
entries in the cache map is at most `C` after each call (any prefix of a
sequence being itself a sequence). -/
theorem fetch_capacity_bound (C : Nat) (hC : 1 ≤ C)
    (loadFn : String → Option String) (now : Int) (paths : List String) :
    (runFetches loadFn now (initCache C) paths).cacheMap.length ≤ C := by
  obtain ⟨⟨hperm, _⟩, hsize, hlen⟩ := runFetches_pres loadFn now paths (initCache C)
    ⟨List.Perm.refl [], List.nodup_nil⟩ (by simpa [initCache] using hC)
  have hmap : (runFetches loadFn now (initCache C) paths).cacheMap.length
      = (runFetches loadFn now (initCache C) paths).fileList.length := by
    simpa [cacheKeys] using hperm.length_eq
  rw [hmap]
  exact Nat.le_of_lt (by simpa [initCache] using hlen)

/-- Sequential preservation of the intended map/list correspondence:
a single-threaded Fetch (fresh hit, stale hit, miss-insert and
miss-insert-with-eviction) keeps the same paths in map and list with each
path exactly once in the list.  This is the invariant the spec intends;
the concurrent miss race (`fetch_concurrent_miss_duplicate_eval`) shows
the program itself violates it. -/
theorem fetch_preserves_map_list_correspondence
    (loadFn : String → Option String) (now : Int) (fc : FileCache)
    (path : String) (h : CacheCorr fc) :
    CacheCorr (fetch loadFn now fc path).2 ∧
    (∀ p, p ∈ cacheKeys (fetch loadFn now fc path).2 ↔
      p ∈ (fetch loadFn now fc path).2.fileList) ∧
    (∀ p, p ∈ cacheKeys (fetch loadFn now fc path).2 →
      (fetch loadFn now fc path).2.fileList.count p = 1) := by
  obtain ⟨h1, _, _⟩ := fetch_pres loadFn now fc path h
  refine ⟨h1, fun p => h1.1.mem_iff, fun p hp => ?_⟩
  exact List.count_eq_one_of_mem h1.2 (h1.1.mem_iff.mp hp)

/-- At capacity 1 every miss-insert immediately evicts the entry it just
inserted (the new entry is the whole list, hence also the list back), so a
Fetch leaves the cache exactly as it found it and serves the bytes
returned by the strategy load. -/
lemma fetch_cap1_empty (loadFn : String → Option String) (now : Int) (path : String) :
    fetch loadFn now { cacheMap := [], fileList := [], size := 1 } path
      = (loadFn path, { cacheMap := [], fileList := [], size := 1 }) := by
  cases he : loadFn path with
  | none => simp [fetch, lookupFile, he]
  | some c => simp [fetch, lookupFile, he, eraseKey, moveToFront]

/-- C10 (amended: capacity at least 1): eviction runs after the new entry
is inserted and triggers when the list length equals the configured size,
so a Fetch that inserts a new entry into a cache of capacity `C ≥ 1`
leaves at most `C − 1` entries in the map; in particular at capacity 1 the
just-inserted entry is itself the LRU tail and is evicted at once: the
cache stays permanently empty over any Fetch sequence and every Fetch is
answered by a fresh strategy load, never from cache. -/
theorem fetch_insert_leaves_capacity_minus_one
    (loadFn : String → Option String) (now : Int) (fc : FileCache)
    (path : String) (c : String) (paths : List String)
    (hsize : 1 ≤ fc.size) (hcorr : CacheCorr fc)
    (hlen : fc.fileList.length < fc.size)
    (hmiss : lookupFile fc.cacheMap path = none)
    (hload : loadFn path = some c) :
    (fetch loadFn now fc path).2.cacheMap.length + 1 ≤ fc.size ∧
    runFetches loadFn now (initCache 1) paths = initCache 1 ∧
    fetch loadFn now (initCache 1) path = (loadFn path, initCache 1) := by
  refine ⟨?_, ?_, fetch_cap1_empty loadFn now path⟩
  · obtain ⟨h1, h2, h3⟩ := fetch_pres loadFn now fc path hcorr
    have hmap : (fetch loadFn now fc path).2.cacheMap.length
        = (fetch loadFn now fc path).2.fileList.length := by
      simpa [cacheKeys] using h1.1.length_eq
    rw [hmap]
    exact Nat.succ_le_of_lt (h3 hlen)
  · induction paths with
    | nil => rfl
    | cons p rest ih =>
      show runFetches loadFn now (fetchStep loadFn now (initCache 1) p) rest = initCache 1
      have : fetchStep loadFn now (initCache 1) p = initCache 1 := by
        show (fetch loadFn now { cacheMap := [], fileList := [], size := 1 } p).2 = _
        rw [fetch_cap1_empty loadFn now p]
        rfl
      rw [this]
      exact ih

/-- Weight of a thread position: 1 once the thread is past the point where
it can still invoke `LoadContents` in this Fetch. -/
def loadContribution : TPc → Nat
  | .tLoaded => 1
  | .tUnlocked2 => 1
  | .tReread => 1
  | .tDone => 1
  | _ => 0

lemma threadStep_load_le (s : EntrySys) (pc : TPc) (r : Bool × Nat × Bool × Nat × TPc)
    (h : threadStep s pc = some r) :
    r.2.2.2.1 + loadContribution pc ≤ s.loads + loadContribution r.2.2.2.2 := by
  cases pc with
  | tStart =>
    by_cases hw : s.writerHeld
    · simp [threadStep, hw] at h
    · simp [threadStep, hw] at h
      subst h
      simp [loadContribution]
  | tReading =>
    cases hf : s.fresh with
    | true =>
      simp [threadStep, hf] at h
      subst h
      simp [loadContribution]
    | false =>
      simp [threadStep, hf] at h
      subst h
      simp [loadContribution]
  | tStale =>
    simp [threadStep] at h
    subst h
    simp [loadContribution]
  | tNoLock =>
    cases hw : (s.writerHeld || decide (0 < s.readers)) with
    | true => simp [threadStep, hw] at h
    | false =>
      simp [threadStep, hw] at h
      subst h
      simp [loadContribution]
  | tWriting =>
    simp [threadStep] at h
    subst h
    simp [loadContribution]
  | tLoaded =>
    simp [threadStep] at h
    subst h
    simp [loadContribution]
  | tUnlocked2 =>
    by_cases hw : s.writerHeld
    · simp [threadStep, hw] at h
    · simp [threadStep, hw] at h
      subst h
      simp [loadContribution]
  | tReread =>
    simp [threadStep] at h
    subst h
    simp [loadContribution]
  | tDone => simp [threadStep] at h

lemma sysStep_inv (s s' : EntrySys) (t : Bool)
    (hP : s.loads ≤ loadContribution s.pcA + loadContribution s.pcB)
    (h : sysStep s t = some s') :
    s'.loads ≤ loadContribution s'.pcA + loadContribution s'.pcB := by
  cases t with
  | true =>
    simp only [sysStep, if_true] at h
    cases hts : threadStep s s.pcB with
    | none => rw [hts] at h; exact absurd h (by simp)
    | some r =>
      rw [hts] at h
      obtain ⟨f, rd, w, ld, pc⟩ := r
      simp only [Option.some.injEq] at h
      subst h
      have hle := threadStep_load_le s s.pcB (f, rd, w, ld, pc) hts
      simp only at hle ⊢
      omega
  | false =>
    simp only [sysStep, Bool.false_eq_true, if_false] at h
    cases hts : threadStep s s.pcA with
    | none => rw [hts] at h; exact absurd h (by simp)
    | some r =>
      rw [hts] at h
      obtain ⟨f, rd, w, ld, pc⟩ := r
      simp only [Option.some.injEq] at h
      subst h
      have hle := threadStep_load_le s s.pcA (f, rd, w, ld, pc) hts
      simp only at hle ⊢
      omega

lemma sysRun_inv (sched : List Bool) (s s' : EntrySys)
    (hP : s.loads ≤ loadContribution s.pcA + loadContribution s.pcB)
    (h : sysRun sched s = some s') :
    s'.loads ≤ loadContribution s'.pcA + loadContribution s'.pcB := by
  induction sched generalizing s with
  | nil =>
    simp only [sysRun, Option.some.injEq] at h
    subst h
    exact hP
  | cons tid rest ih =>
    simp only [sysRun] at h
    cases hst : sysStep s tid with
    | none => rw [hst] at h; exact absurd h (by simp)
    | some s1 =>
      rw [hst] at h
      exact ih s1 (sysStep_inv s s1 tid hP hst) h

/-- C1 (amended): in the two-thread model of concurrent Fetches of the
same stale cached path, each thread invokes `LoadContents` at most once,
so the aggregate number of loads never exceeds the number of Fetches (2
here) -- but, because the source re-acquires the entry write lock without
re-checking the fresh flag, the aggregate is not bounded by 1
(see the counterexample). -/
theorem fetch_stale_reload_at_most_once_per_thread (sched : List Bool)
    (s' : EntrySys) (h : sysRun sched initStale = some s') : s'.loads ≤ 2 := by
  have hP := sysRun_inv sched initStale s' (by simp [initStale, loadContribution]) h
  have hA : loadContribution s'.pcA ≤ 1 := by
    cases hpc : s'.pcA <;> simp [loadContribution]
  have hB : loadContribution s'.pcB ≤ 1 := by
    cases hpc : s'.pcB <;> simp [loadContribution]
  omega

lemma strTail_self (p : String) : strTail ("=" ++ p) = p := by
  simp [strTail, String.data_append]

lemma parseLineType_self (p : String) :
    parseLineType ("=" ++ p) = LineType.typeSubGophermap := by
  simp [parseLineType, String.data_append]

/-- C7: an include directive whose target equals the path being parsed is
skipped silently -- it contributes no section, no hidden name and no
error, and triggers no recursive parse: the scan of any surrounding lines
is exactly the scan with that directive line removed, at every recursion
budget `fuel` (in particular the skip consumes no recursion depth, so a
self-including gophermap parses without unbounded recursion). -/
theorem gophermap_self_include_skipped (fuel : Nat) (fs : String → Option String)
    (path : String) (hsuf : strEndsWith path GophermapFileStr = true)
    (pre post : List String) (st : ParseState) :
    readGophermapLoop fuel fs path (pre ++ ("=" ++ path) :: post) st
      = readGophermapLoop fuel fs path (pre ++ post) st := by
  induction pre generalizing st with
  | nil =>
    simp only [List.nil_append]
    conv_lhs => rw [readGophermapLoop.eq_def]
    simp [parseLineType_self path, strTail_self path, hsuf]
  | cons l pre' ih =>
    simp only [List.cons_append]
    conv_lhs => rw [readGophermapLoop.eq_def]
    conv_rhs => rw [readGophermapLoop.eq_def]
    cases hlt : parseLineType l with
    | typeInfoNotStated => simp only [hlt]; exact ih _
    | typeComment => simp only [hlt]; exact ih _
    | typeHiddenFile => simp only [hlt]; exact ih _
    | typeExec => simp only [hlt]; exact ih _
    | typeEnd => simp only [hlt]
    | typeEndBeginList => simp only [hlt]
    | typeOther => simp only [hlt]; exact ih _
    | typeSubGophermap =>
      simp only [hlt]
      by_cases hs : strEndsWith (strTail l) GophermapFileStr = true
      · rw [if_pos hs, if_pos hs]
        by_cases heq : strTail l = path
        · rw [if_pos heq, if_pos heq]
          exact ih _
        · rw [if_neg heq, if_neg heq]
          cases fuel with
          | zero => rfl
          | succ fuel2 =>
            cases hfs : fs (strTail l) with
            | none => simp only [hfs]; exact ih _
            | some src =>
              simp only [hfs]
              cases hsub : readGophermapLoop fuel2 fs (strTail l) (splitCrLf src)
                  initParseState with
              | none => simp only [hsub]
              | some subSt => simp only [hsub]; exact ih _
      · rw [if_neg hs, if_neg hs]
        cases hr : readIntoGophermap fs (strTail l) with
        | error e => simp only [hr]; exact ih _
        | ok fileContents => simp only [hr]; exact ih _

/-- Scanning lines that contain no last-line directive never stops early:
the scan of `l₁ ++ l₂` continues into `l₂` from the state reached after
`l₁`, and the stopped flag and pending directory listing are untouched. -/
lemma loop_append (fuel : Nat) (fs : String → Option String) (path : String)
    (l₁ l₂ : List String) (st st₁ : ParseState)
    (hno : ∀ l ∈ l₁, parseLineType l ≠ LineType.typeEnd ∧
      parseLineType l ≠ LineType.typeEndBeginList)
    (h : readGophermapLoop fuel fs path l₁ st = some st₁) :
    readGophermapLoop fuel fs path (l₁ ++ l₂) st = readGophermapLoop fuel fs path l₂ st₁ ∧
    st₁.stopped = st.stopped ∧ st₁.dirList = st.dirList := by
  revert hno h
  induction l₁ generalizing st with
  | nil =>
    intro hno h
    simp only [readGophermapLoop, Option.some.injEq] at h
    subst h
    exact ⟨by simp, rfl, rfl⟩
  | cons l rest ih =>
    intro hno h
    have hl := hno l (List.mem_cons_self l rest)
    have hrest : ∀ x ∈ rest, parseLineType x ≠ LineType.typeEnd ∧
        parseLineType x ≠ LineType.typeEndBeginList :=
      fun x hx => hno x (List.mem_cons_of_mem l hx)
    rw [readGophermapLoop.eq_def] at h
    simp only [List.cons_append]
    conv_lhs => rw [readGophermapLoop.eq_def]
    cases hlt : parseLineType l with
    | typeEnd => exact absurd hlt hl.1
    | typeEndBeginList => exact absurd hlt hl.2
    | typeInfoNotStated =>
      simp only [hlt] at h ⊢
      exact ih _ hrest h
    | typeComment =>
      simp only [hlt] at h ⊢
      exact ih _ hrest h
    | typeHiddenFile =>
      simp only [hlt] at h ⊢
      exact ih _ hrest h
    | typeExec =>
      simp only [hlt] at h ⊢
      exact ih _ hrest h
    | typeOther =>
      simp only [hlt] at h ⊢
      exact ih _ hrest h
    | typeSubGophermap =>
      simp only [hlt] at h ⊢
      by_cases hs : strEndsWith (strTail l) GophermapFileStr = true
      · rw [if_pos hs] at h ⊢
        by_cases heq : strTail l = path
        · rw [if_pos heq] at h ⊢
          exact ih _ hrest h
        · rw [if_neg heq] at h ⊢
          cases fuel with
          | zero => exact absurd h (by simp)
          | succ fuel2 =>
            cases hfs : fs (strTail l) with
            | none =>
              simp only [hfs] at h ⊢
              exact ih _ hrest h
            | some src =>
              simp only [hfs] at h ⊢
              cases hsub : readGophermapLoop fuel2 fs (strTail l) (splitCrLf src)
                  initParseState with
              | none => rw [hsub] at h; simp at h
              | some subSt =>
                rw [hsub] at h
                dsimp only at h ⊢
                exact ih _ hrest h
      · rw [if_neg hs] at h ⊢
        cases hr : readIntoGophermap fs (strTail l) with
        | error e =>
          simp only [hr] at h ⊢
          exact ih _ hrest h
        | ok fileContents =>
          simp only [hr] at h ⊢
          exact ih _ hrest h

/-- C8: for a source containing no last-line directive (no line
classifying as `.` alone or `*` alone), a terminating scan processes every
CR-LF-terminated line up to end of file -- the scan never stops early (the
stopped flag stays false, and scanning the lines followed by any
continuation continues into the continuation), no directory listing is
pending, and `readGophermap` returns the accumulated section list without
error. -/
theorem gophermap_no_lastline_scans_to_eof (fuel : Nat)
    (fs : String → Option String) (path src : String) (st' : ParseState)
    (hsrc : fs path = some src)
    (hnoend : ∀ l ∈ splitCrLf src, parseLineType l ≠ LineType.typeEnd ∧
      parseLineType l ≠ LineType.typeEndBeginList)
    (hrun : readGophermapLoop fuel fs path (splitCrLf src) initParseState = some st') :
    readGophermap fuel fs path = some (Except.ok st'.sections) ∧
    st'.stopped = false ∧ st'.dirList = none ∧
    (∀ extra, readGophermapLoop fuel fs path (splitCrLf src ++ extra) initParseState
      = readGophermapLoop fuel fs path extra st') := by
  obtain ⟨_, hstop, hdir⟩ :=
    loop_append fuel fs path (splitCrLf src) [] initParseState st' hnoend hrun
  refine ⟨?_, hstop, hdir, fun extra =>
    (loop_append fuel fs path (splitCrLf src) extra initParseState st' hnoend hrun).1⟩
  simp only [readGophermap, hsrc, hrun]
  have : assembleSections st' = st'.sections := by
    simp [assembleSections, hdir, initParseState]
  rw [this]

lemma isPrefixOf_self_append (l t : List Char) : l.isPrefixOf (l ++ t) = true := by
  induction l with
  | nil => simp [List.isPrefixOf]
  | cons c cs ih => simp [List.isPrefixOf, ih]

lemma containsSubAux_of_append (pat pre rest : List Char) :
    containsSubAux pat (pre ++ (pat ++ rest)) = true := by
  induction pre with
  | nil =>
    cases pat with
    | nil => cases rest <;> simp [containsSubAux, List.isPrefixOf]
    | cons c p2 => simp [containsSubAux, isPrefixOf_self_append]
  | cons c pre2 ih => simp [containsSubAux, ih]

lemma capsTxt_head_decomp (v d g a : String) :
    generateCapsTxt v d g a = ("CAPS" ++ DOSLineEnd ++ DOSLineEnd) ++
      ("# This is an automatically generated" ++ DOSLineEnd
        ++ "# server policy file: caps.txt" ++ DOSLineEnd
        ++ DOSLineEnd
        ++ "CapsVersion=1" ++ DOSLineEnd
        ++ "ExpireCapsAfter=1800" ++ DOSLineEnd
        ++ DOSLineEnd
        ++ "PathDelimeter=/" ++ DOSLineEnd
        ++ "PathIdentity=." ++ DOSLineEnd
        ++ "PathParent=.." ++ DOSLineEnd
        ++ "PathParentDouble=FALSE" ++ DOSLineEnd
        ++ "PathEscapeCharacter=\\" ++ DOSLineEnd
        ++ "PathKeepPreDelimeter=FALSE" ++ DOSLineEnd
        ++ DOSLineEnd
        ++ "ServerSoftware=Gophor" ++ DOSLineEnd
        ++ "ServerSoftwareVersion=" ++ v ++ DOSLineEnd
        ++ "ServerDescription=" ++ d ++ DOSLineEnd
        ++ "ServerGeolocationString=" ++ g ++ DOSLineEnd
        ++ "ServerDefaultEncoding=ascii" ++ DOSLineEnd
        ++ DOSLineEnd
        ++ "ServerAdmin=" ++ a ++ DOSLineEnd) := by
  simp only [generateCapsTxt, String.append_assoc]

lemma capsTxt_mid_decomp (v d g a : String) :
    generateCapsTxt v d g a =
      ("CAPS" ++ DOSLineEnd ++ DOSLineEnd
        ++ "# This is an automatically generated" ++ DOSLineEnd
        ++ "# server policy file: caps.txt" ++ DOSLineEnd
        ++ DOSLineEnd) ++
      (("CapsVersion=1" ++ DOSLineEnd) ++
        ("ExpireCapsAfter=1800" ++ DOSLineEnd
          ++ DOSLineEnd
          ++ "PathDelimeter=/" ++ DOSLineEnd
          ++ "PathIdentity=." ++ DOSLineEnd
          ++ "PathParent=.." ++ DOSLineEnd
          ++ "PathParentDouble=FALSE" ++ DOSLineEnd
          ++ "PathEscapeCharacter=\\" ++ DOSLineEnd
          ++ "PathKeepPreDelimeter=FALSE" ++ DOSLineEnd
          ++ DOSLineEnd
          ++ "ServerSoftware=Gophor" ++ DOSLineEnd
          ++ "ServerSoftwareVersion=" ++ v ++ DOSLineEnd
          ++ "ServerDescription=" ++ d ++ DOSLineEnd
          ++ "ServerGeolocationString=" ++ g ++ DOSLineEnd
          ++ "ServerDefaultEncoding=ascii" ++ DOSLineEnd
          ++ DOSLineEnd
          ++ "ServerAdmin=" ++ a ++ DOSLineEnd)) := by
  simp only [generateCapsTxt, String.append_assoc]

/-- C9: after the policy bootstrap on a freshly started server whose disk
has no `/caps.txt` (the stat fails), the cache map holds a generated
`/caps.txt` entry marked fresh; a Fetch of `/caps.txt` is served from that
entry and returns bytes that begin with `CAPS\r\n\r\n` and contain the
line `CapsVersion=1\r\n`. -/
theorem caps_txt_bootstrap_fetch (version description geolocation adminEmail : String)
    (statFn : String → Option Unit) (hstat : statFn "/caps.txt" = none) :
    bootLookup (cachePolicyFiles statFn version description geolocation adminEmail [])
        "/caps.txt"
      = some { contents := generateCapsTxt version description geolocation adminEmail,
               fresh := true } ∧
    bootFetchFresh (cachePolicyFiles statFn version description geolocation adminEmail [])
        "/caps.txt"
      = some (generateCapsTxt version description geolocation adminEmail) ∧
    strStartsWith (generateCapsTxt version description geolocation adminEmail)
        "CAPS\r\n\r\n" = true ∧
    strContains (generateCapsTxt version description geolocation adminEmail)
        "CapsVersion=1\r\n" = true := by
  have hlook : bootLookup
      (cachePolicyFiles statFn version description geolocation adminEmail []) "/caps.txt"
      = some { contents := generateCapsTxt version description geolocation adminEmail,
               fresh := true } := by
    cases hr : statFn "/robots.txt" <;>
      simp [cachePolicyFiles, hstat, hr, cacheMapPut, bootLookup,
        loadContentsGenerated, NewFile]
  refine ⟨hlook, ?_, ?_, ?_⟩
  · rw [bootFetchFresh, hlook]
    rfl
  · rw [strStartsWith, capsTxt_head_decomp, String.data_append]
    have hd : ("CAPS" ++ DOSLineEnd ++ DOSLineEnd).data = "CAPS\r\n\r\n".data := by decide
    rw [hd]
    exact isPrefixOf_self_append _ _
  · rw [strContains, capsTxt_mid_decomp]
    simp only [String.data_append]
    have hd : "CapsVersion=1".data ++ DOSLineEnd.data = "CapsVersion=1\r\n".data := by decide
    rw [hd]
    exact containsSubAux_of_append _ _ _

/- ------------------------------------------------------------------ -/
/- Concrete instances discharging the hypotheses of the theorems above. -/

/-- A strategy load that always succeeds with the bytes "x". -/
def exLoad : String → Option String := fun _ => some "x"

/-- A one-entry cache of capacity 3 used to instantiate C4. -/
def exCache4 : FileCache :=
  { cacheMap := [("b", ⟨"y", true, 0⟩)], fileList := ["b"], size := 3 }

/-- A one-entry cache of capacity 2 used to instantiate C10. -/
def exCache10 : FileCache :=
  { cacheMap := [("b", ⟨"y", true, 0⟩)], fileList := ["b"], size := 2 }

/-- A file system with no readable files. -/
def exFsNone : String → Option String := fun _ => none

/-- A file system holding one two-line gophermap without a last-line
directive. -/
def exFs8 : String → Option String :=
  fun p => if p = "/m.gophermap" then some "~plain\r\n0menu line\r\n" else none

/-- The parse state reached after scanning both lines of the `exFs8`
gophermap. -/
def exState8 : ParseState :=
  { sections := [.text (buildInfoLine "~plain"), .text ("0menu line" ++ CrLf)],
    hidden := [], dirList := none, stopped := false }

theorem fetch_stale_reload_at_most_once_per_thread_witness :
    sysRun doubleLoadSched initStale = some doubleLoadFinal ∧ doubleLoadFinal.loads ≤ 2 :=
  ⟨by decide,
    fetch_stale_reload_at_most_once_per_thread doubleLoadSched doubleLoadFinal (by decide)⟩

theorem fetch_capacity_bound_witness :
    1 ≤ 2 ∧ (runFetches exLoad 0 (initCache 2) ["a", "b", "c"]).cacheMap.length ≤ 2 :=
  ⟨by decide, fetch_capacity_bound 2 (by decide) exLoad 0 ["a", "b", "c"]⟩

theorem fetch_preserves_map_list_correspondence_witness :
    CacheCorr (fetch exLoad 0 exCache4 "a").2 ∧
    ("a" ∈ cacheKeys (fetch exLoad 0 exCache4 "a").2 ↔
      "a" ∈ (fetch exLoad 0 exCache4 "a").2.fileList) ∧
    (fetch exLoad 0 exCache4 "a").2.fileList.count "a" = 1 := by
  have h := fetch_preserves_map_list_correspondence exLoad 0 exCache4 "a"
    ⟨by decide, by decide⟩
  exact ⟨h.1, h.2.1 "a", h.2.2 "a" (by decide)⟩

theorem gophermap_self_include_skipped_witness :
    readGophermapLoop 3 exFsNone "/m.gophermap"
        (["~a"] ++ ("=" ++ "/m.gophermap") :: ["~b"]) initParseState
      = readGophermapLoop 3 exFsNone "/m.gophermap" (["~a"] ++ ["~b"]) initParseState :=
  gophermap_self_include_skipped 3 exFsNone "/m.gophermap" (by decide)
    ["~a"] ["~b"] initParseState

lemma exFs8_run : readGophermapLoop 1 exFs8 "/m.gophermap"
    (splitCrLf "~plain\r\n0menu line\r\n") initParseState = some exState8 := by
  have hsplit : splitCrLf "~plain\r\n0menu line\r\n" = ["~plain", "0menu line"] := by
    decide
  have h1 : parseLineType "~plain" = LineType.typeInfoNotStated := by decide
  have h2 : parseLineType "0menu line" = LineType.typeOther := by decide
  rw [hsplit, readGophermapLoop.eq_def]
  simp only [h1]
  rw [readGophermapLoop.eq_def]
  simp only [h2]
  rw [readGophermapLoop.eq_def]
  decide

theorem gophermap_no_lastline_scans_to_eof_witness :
    readGophermap 1 exFs8 "/m.gophermap" = some (Except.ok exState8.sections) ∧
    exState8.stopped = false ∧
    readGophermapLoop 1 exFs8 "/m.gophermap"
        (splitCrLf "~plain\r\n0menu line\r\n" ++ ["~c"]) initParseState
      = readGophermapLoop 1 exFs8 "/m.gophermap" ["~c"] exState8 := by
  have h := gophermap_no_lastline_scans_to_eof 1 exFs8 "/m.gophermap"
    "~plain\r\n0menu line\r\n" exState8 rfl (by decide) exFs8_run
  exact ⟨h.1, h.2.1, h.2.2.2 ["~c"]⟩

theorem caps_txt_bootstrap_fetch_witness :
    bootLookup (cachePolicyFiles (fun _ => none) "1.0" "d" "g" "a" []) "/caps.txt"
      = some { contents := generateCapsTxt "1.0" "d" "g" "a", fresh := true } ∧
    strStartsWith (generateCapsTxt "1.0" "d" "g" "a") "CAPS\r\n\r\n" = true ∧
    strContains (generateCapsTxt "1.0" "d" "g" "a") "CapsVersion=1\r\n" = true := by
  have h := caps_txt_bootstrap_fetch "1.0" "d" "g" "a" (fun _ => none) rfl
  exact ⟨h.1, h.2.2.1, h.2.2.2⟩

theorem fetch_insert_leaves_capacity_minus_one_witness :
    (fetch exLoad 0 exCache10 "a").2.cacheMap.length + 1 ≤ exCache10.size ∧
    runFetches exLoad 0 (initCache 1) ["p", "q"] = initCache 1 ∧
    fetch exLoad 0 (initCache 1) "a" = (exLoad "a", initCache 1) := by
  have h := fetch_insert_leaves_capacity_minus_one exLoad 0 exCache10 "a" "x"
    ["p", "q"] (by decide) ⟨by decide, by decide⟩ (by decide) (by decide) rfl
  exact ⟨h.1, h.2.1, h.2.2⟩

end Gophor
